import Mathlib

/-
Verification of the hayagriva entry-graph data model and library container
(src/lib.rs) and the IEEE canonical-parent resolution (src/output/ieee/mod.rs).

The Rust code is shallowly embedded: the recursive `Entry` struct becomes a
Lean inductive, `Vec` becomes `List`, `Option` stays `Option`, serde results
become `Except String`, and the `indexmap::IndexMap` backing `Library` is
modelled as an association list with the documented IndexMap operation
semantics (`insert` replaces in place or appends; `remove` is a swap-remove).
-/

/-- Modelled from the spec: the value types of the optional entry fields live
in `types.rs`, which is not part of the sources under verification; the spec
only requires that each field is "either present with a non-empty value or
absent" and that equality is structural. Each carrier is therefore a minimal
structural wrapper. `FormatString` carries formatted text. -/
structure FormatString where
  value : String
deriving DecidableEq

/-- Modelled from the spec: a date value; the crate documentation accesses its
`year` component. -/
structure Date where
  year : Int
deriving DecidableEq

/-- Modelled from the spec: a person (author, editor, ...) with an optional
alias, as used by `Entry::social_handle`. -/
structure Person where
  name : String
  alias_ : Option String
deriving DecidableEq

/-- Modelled from the spec: the closed set of roles affiliated persons can
have; `src/output/ieee/mod.rs` mentions directors and executive producers. -/
inductive PersonRole : Type where
  | director
  | executiveProducer
  | translator
  | compiler
  | founder
  | collaborator
  | organizer
  | castMember
  | composer
  | producer
  | writer
  | narrator
deriving DecidableEq

/-- Modelled from the spec: a list of persons together with their role. -/
structure PersonsWithRoles where
  names : List Person
  role : PersonRole
deriving DecidableEq

/-- Modelled from the spec: a numeric field value. -/
structure Numeric where
  value : Int
deriving DecidableEq

/-- Modelled from the spec: a value that is either structured or a free-form
string, as used for issues, volumes, editions, runtimes and time ranges. -/
inductive MaybeTyped (α : Type) : Type where
  | typed (value : α)
  | str (value : String)
deriving DecidableEq

/-- Modelled from the spec: a duration. -/
structure Duration where
  seconds : Nat
deriving DecidableEq

/-- Modelled from the spec: a range between two durations. -/
structure DurationRange where
  start : Duration
  stop : Duration
deriving DecidableEq

/-- Modelled from the spec: a canonical public URL with an optional access
date. -/
structure QualifiedUrl where
  value : String
  visit_date : Option Date
deriving DecidableEq

/-- Modelled from the spec: a language identifier. -/
structure LanguageIdentifier where
  value : String
deriving DecidableEq

/-- Modelled from the spec: the closed enumeration of work kinds. The spec
names article, book, periodical, conference, proceedings, thesis and patent;
`src/output/ieee/mod.rs` additionally uses chapter, scene, web item,
in-anthology, anthology, entry, reference, repository and video, and
`src/lib.rs` uses post. -/
inductive EntryType : Type where
  | article
  | book
  | periodical
  | conference
  | proceedings
  | thesis
  | patent
  | chapter
  | scene
  | webItem
  | inAnthology
  | anthology
  | entry
  | reference
  | repository
  | video
  | blog
  | post
  | newspaper
  | misc
deriving DecidableEq

/-- Record of the 26 optional serde fields of `struct Entry` in `src/lib.rs`,
in declaration order of the `entry!` macro invocation. Grouping them in one
record (instead of 26 separate constructor arguments) is the only deviation
from the Rust layout; the components and their types match one for one. -/
structure EntryFields where
  title : Option FormatString
  authors : Option (List Person)
  date : Option Date
  editors : Option (List Person)
  affiliated : Option (List PersonsWithRoles)
  publisher : Option FormatString
  location : Option FormatString
  organization : Option FormatString
  issue : Option (MaybeTyped Numeric)
  volume : Option (MaybeTyped Numeric)
  volume_total : Option Numeric
  edition : Option (MaybeTyped Numeric)
  page_range : Option Numeric
  page_total : Option Numeric
  time_range : Option (MaybeTyped DurationRange)
  runtime : Option (MaybeTyped Duration)
  url : Option QualifiedUrl
  doi : Option String
  serial_number : Option String
  isbn : Option String
  issn : Option String
  language : Option LanguageIdentifier
  archive : Option FormatString
  archive_location : Option FormatString
  call_number : Option FormatString
  note : Option FormatString
deriving DecidableEq

/-- Record with every optional field absent, as produced by `Entry::new`. -/
def EntryFields.empty : EntryFields :=
  ⟨none, none, none, none, none, none, none, none, none, none, none, none,
   none, none, none, none, none, none, none, none, none, none, none, none,
   none, none⟩

/-- Embedding of `struct Entry` of `src/lib.rs`: a key, an entry type, the 26
optional fields and an ordered list of parent entries (the Rust
`parents: Vec<Entry>` owns its parents by value, hence a plain inductive). -/
inductive Entry : Type where
  | mk (key : String) (entry_type : EntryType) (fields : EntryFields)
      (parents : List Entry)

/-- Projection to the key of `struct Entry` (method `Entry::key`). -/
def Entry.key : Entry → String
  | .mk k _ _ _ => k

/-- Projection to the type of `struct Entry` (method `Entry::entry_type`). -/
def Entry.entry_type : Entry → EntryType
  | .mk _ t _ _ => t

/-- Projection to the optional fields of `struct Entry`. -/
def Entry.fields : Entry → EntryFields
  | .mk _ _ f _ => f

/-- Projection to the parents of `struct Entry` (method `Entry::parents`). -/
def Entry.parents : Entry → List Entry
  | .mk _ _ _ ps => ps

mutual

/-- Decidable structural equality for `Entry`, matching the Rust
`derive(PartialEq)` on `struct Entry`, which compares every field of the
struct: key, entry type, the 26 optional fields and the parents. -/
def Entry.decEq (a b : Entry) : Decidable (a = b) :=
  match a, b with
  | .mk k1 t1 f1 p1, .mk k2 t2 f2 p2 =>
    if hk : k1 = k2 then
      if ht : t1 = t2 then
        if hf : f1 = f2 then
          match Entry.decEqList p1 p2 with
          | isTrue hp => isTrue (by rw [hk, ht, hf, hp])
          | isFalse hp => isFalse (by intro h; injection h; contradiction)
        else isFalse (by intro h; injection h; contradiction)
      else isFalse (by intro h; injection h; contradiction)
    else isFalse (by intro h; injection h; contradiction)

/-- Decidable structural equality for lists of entries (the Rust
`PartialEq` of `Vec<Entry>`). -/
def Entry.decEqList (a b : List Entry) : Decidable (a = b) :=
  match a, b with
  | [], [] => isTrue rfl
  | [], _ :: _ => isFalse (by intro h; exact List.noConfusion h)
  | _ :: _, [] => isFalse (by intro h; exact List.noConfusion h)
  | x :: xs, y :: ys =>
    match Entry.decEq x y, Entry.decEqList xs ys with
    | isTrue h1, isTrue h2 => isTrue (by rw [h1, h2])
    | isFalse h1, _ => isFalse (by intro h; injection h; contradiction)
    | isTrue _, isFalse h2 => isFalse (by intro h; injection h; contradiction)

end

instance : DecidableEq Entry := Entry.decEq

/-- Embedding of `Entry::new` of `src/lib.rs`: an entry with the given key and
type, every optional field `None` and no parents. -/
def Entry.new (key : String) (entry_type : EntryType) : Entry :=
  .mk key entry_type EntryFields.empty []

/-- Embedding of `Entry::has` of `src/lib.rs`: the generated `match` over the
serde names of the 26 optional fields, true iff the named field is `Some`;
any other string falls to the default arm and yields false (the Rust `match`
on string literals is written as the equivalent comparison chain). -/
def Entry.has (e : Entry) (key : String) : Bool :=
  if key = "title" then e.fields.title.isSome
  else if key = "author" then e.fields.authors.isSome
  else if key = "date" then e.fields.date.isSome
  else if key = "editor" then e.fields.editors.isSome
  else if key = "affiliated" then e.fields.affiliated.isSome
  else if key = "publisher" then e.fields.publisher.isSome
  else if key = "location" then e.fields.location.isSome
  else if key = "organization" then e.fields.organization.isSome
  else if key = "issue" then e.fields.issue.isSome
  else if key = "volume" then e.fields.volume.isSome
  else if key = "volume-total" then e.fields.volume_total.isSome
  else if key = "edition" then e.fields.edition.isSome
  else if key = "page-range" then e.fields.page_range.isSome
  else if key = "page-total" then e.fields.page_total.isSome
  else if key = "time-range" then e.fields.time_range.isSome
  else if key = "runtime" then e.fields.runtime.isSome
  else if key = "url" then e.fields.url.isSome
  else if key = "doi" then e.fields.doi.isSome
  else if key = "serial-number" then e.fields.serial_number.isSome
  else if key = "isbn" then e.fields.isbn.isSome
  else if key = "issn" then e.fields.issn.isSome
  else if key = "language" then e.fields.language.isSome
  else if key = "archive" then e.fields.archive.isSome
  else if key = "archive-location" then e.fields.archive_location.isSome
  else if key = "call-number" then e.fields.call_number.isSome
  else if key = "note" then e.fields.note.isSome
  else false

/-- Model of `indexmap::IndexMap<String, Entry>` as an association list in
index order. `insert` follows the documented IndexMap semantics: if the key is
already present its value is replaced in place (the key keeps its index),
otherwise the pair is appended at the end. -/
def indexmap_insert (l : List (String × Entry)) (k : String) (v : Entry) :
    List (String × Entry) :=
  if l.any (fun p => p.1 == k) then
    l.map (fun p => if p.1 = k then (p.1, v) else p)
  else
    l ++ [(k, v)]

/-- Model of the swap-removal performed by `IndexMap::remove` (an alias of
`swap_remove`): the element at index `i` is swapped with the last element and
then popped, so the last element takes the removed element's index. -/
def indexmap_swap_remove_at (l : List (String × Entry)) (i : Nat) :
    List (String × Entry) :=
  match l.getLast? with
  | none => l
  | some last => (l.set i last).dropLast

/-- Embedding of `struct Library` of `src/lib.rs`: an `IndexMap` from key to
entry, modelled as its association list in index order. -/
structure Library where
  entries : List (String × Entry)

/-- Embedding of `Library::new`: the empty library. -/
def Library.new : Library :=
  ⟨[]⟩

/-- Embedding of `Library::push`: `self.0.insert(entry.key.clone(), entry.clone())`. -/
def Library.push (l : Library) (entry : Entry) : Library :=
  ⟨indexmap_insert l.entries entry.key entry⟩

/-- Embedding of `Library::get`: lookup by key. -/
def Library.get (l : Library) (key : String) : Option Entry :=
  (l.entries.find? (fun p => p.1 == key)).map (fun p => p.2)

/-- Embedding of `Library::iter`: the entries in index order. -/
def Library.iter (l : Library) : List Entry :=
  l.entries.map (fun p => p.2)

/-- Embedding of `Library::keys`: the keys in index order. -/
def Library.keys (l : Library) : List String :=
  l.entries.map (fun p => p.1)

/-- Embedding of `Library::remove`: `self.0.remove(key)`, where
`IndexMap::remove` is a swap-remove. Rust mutates in place and returns the
removed entry; the embedding returns the removed entry and the new library. -/
def Library.remove (l : Library) (key : String) : Option Entry × Library :=
  match l.entries.findIdx? (fun p => p.1 == key) with
  | none => (none, l)
  | some i =>
    ((l.entries.get? i).map (fun p => p.2), ⟨indexmap_swap_remove_at l.entries i⟩)

/-- Embedding of `Library::len`. -/
def Library.len (l : Library) : Nat :=
  l.entries.length

/-- Embedding of `Library::is_empty`. -/
def Library.is_empty (l : Library) : Bool :=
  l.entries.isEmpty

/-- Embedding of `Library::nth`: `self.0.get_index(n)`, the value at index `n`. -/
def Library.nth (l : Library) (n : Nat) : Option Entry :=
  (l.entries.get? n).map (fun p => p.2)

/-- Modelled from the spec: `EntryType::default_parent` lives in `types.rs`,
which is not part of the sources under verification, and the spec does not
describe it; it is modelled as the child's own type. No claim settled here
depends on this choice - only on whether deserialization succeeds or fails. -/
def EntryType.default_parent (t : EntryType) : EntryType :=
  t

/-- Embedding of the `NakedEntry` helper struct generated inside
`Library::deserialize` in `src/lib.rs`: an optional entry type, the parents
(`OneOrMany` flattened to a list) and the 26 optional fields. -/
inductive NakedEntry : Type where
  | mk (entry_type : Option EntryType) (parents : List NakedEntry)
      (fields : EntryFields)

/-- Projection to the optional type of a `NakedEntry`. -/
def NakedEntry.entry_type : NakedEntry → Option EntryType
  | .mk t _ _ => t

mutual

/-- Embedding of `NakedEntry::into_entry` of `src/lib.rs`: resolve the entry
type from the entry itself or from the child's default parent type, failing
with "no entry type" if both are absent, then convert the parents recursively
(each with the same key and the resolved type as child type). -/
def NakedEntry.into_entry (key : String) (child_entry_type : Option EntryType) :
    NakedEntry → Except String Entry
  | .mk et parents fields =>
    match et.orElse (fun _ => child_entry_type.map EntryType.default_parent) with
    | none => .error "no entry type"
    | some t =>
      match NakedEntry.into_entry_list key t parents with
      | .error e => .error e
      | .ok ps => .ok (.mk key t fields ps)

/-- Conversion of a parent list inside `NakedEntry::into_entry` (the Rust
`collect` over a `Result` iterator, stopping at the first error). -/
def NakedEntry.into_entry_list (key : String) (t : EntryType) :
    List NakedEntry → Except String (List Entry)
  | [] => .ok []
  | p :: rest =>
    match NakedEntry.into_entry key (some t) p with
    | .error e => .error e
    | .ok e =>
      match NakedEntry.into_entry_list key t rest with
      | .error e2 => .error e2
      | .ok es => .ok (e :: es)

end

/-- Embedding of the key-collection loop of `MyVisitor::visit_map` in
`Library::deserialize`: pairs are taken in input order and a pair whose key
already occurs among the collected pairs aborts with the error
"duplicate key {key}". -/
def visit_map_collect (acc : List (String × NakedEntry)) :
    List (String × NakedEntry) → Except String (List (String × NakedEntry))
  | [] => .ok acc
  | (key, v) :: rest =>
    if acc.any (fun p => p.1 == key) then
      .error ("duplicate key " ++ key)
    else
      visit_map_collect (acc ++ [(key, v)]) rest

/-- Conversion pass at the end of `MyVisitor::visit_map`: every collected
`NakedEntry` is converted with its key and no child type, stopping at the
first error, and the results are collected in order. -/
def visit_map_convert :
    List (String × NakedEntry) → Except String (List (String × Entry))
  | [] => .ok []
  | (key, v) :: rest =>
    match NakedEntry.into_entry key none v with
    | .error e => .error e
    | .ok entry =>
      match visit_map_convert rest with
      | .error e2 => .error e2
      | .ok entries => .ok ((key, entry) :: entries)

/-- Embedding of `Library::deserialize` of `src/lib.rs` on an already-parsed
sequence of key/naked-entry pairs: collect the pairs rejecting duplicate keys,
then convert them into full entries; any error is returned unchanged and no
library is produced alongside it. -/
def Library.deserialize (pairs : List (String × NakedEntry)) :
    Except String Library :=
  match visit_map_collect [] pairs with
  | .error e => .error e
  | .ok collected =>
    match visit_map_convert collected with
    | .error e => .error e
    | .ok entries => .ok ⟨entries⟩

/-- Step of the `up` closure in `Entry::map_parents`: increment the last
element of a list (the mutable `last_mut` update after popping). -/
def incLast : List Nat → List Nat
  | [] => []
  | [x] => [x + 1]
  | x :: rest => x :: incLast rest

/-- Embedding of the `up` closure in `Entry::map_parents` of `src/lib.rs`:
pop the last index and, if any index remains, increment the new last one. -/
def upPath (path : List Nat) : List Nat :=
  incLast path.dropLast

/-- Embedding of the inner `for i in 1..path.len()` loop of
`Entry::map_parents`: follow the remaining indices down the parent chain;
`none` signals that an index was out of range (the Rust branch that calls
`up` and continues the outer loop). -/
def descendPath : Entry → List Nat → Option Entry
  | item, [] => some item
  | item, i :: rest =>
    match item.parents.get? i with
    | none => none
    | some next => descendPath next rest

/-- Embedding of the labelled outer loop of `Entry::map_parents` of `src/lib.rs`,
with an explicit fuel budget standing in for Rust's unbounded loop: `none`
means the budget ran out before the loop returned, `some r` means the loop
returned `r`. One fuel unit is consumed per outer-loop iteration. The loop
state is the `path` vector of indices; each iteration either returns `None`
(empty path or first index past the direct parents), retries after `up` when
the descent hits an out-of-range index, or probes `f` on the reached item
after incrementing the first index. -/
def Entry.map_parents_loop {T : Type} (f : Entry → Option T) (e : Entry) :
    Nat → List Nat → Option (Option T)
  | 0, _ => none
  | fuel + 1, path =>
    match path with
    | [] => some none
    | first :: rest =>
      match e.parents.get? first with
      | none => some none
      | some item0 =>
        match descendPath item0 rest with
        | none => Entry.map_parents_loop f e fuel (upPath (first :: rest))
        | some item =>
          match f item with
          | some v => some (some v)
          | none => Entry.map_parents_loop f e fuel ((first + 1) :: rest)

/-- Embedding of `Entry::map_parents` of `src/lib.rs`: run the loop from
`path = vec![0]`. The fuel `e.parents.length + 1` is sufficient (proved in
`map_parents_loop_spec` below), so the `getD` default is never taken and the
value is exactly what the Rust loop returns. -/
def Entry.map_parents {T : Type} (f : Entry → Option T) (e : Entry) : Option T :=
  (Entry.map_parents_loop f e (e.parents.length + 1) [0]).getD none

/-- Embedding of `Entry::map` of `src/lib.rs`: `f(self)` if present, else
`self.map_parents(f)`. -/
def Entry.map {T : Type} (f : Entry → Option T) (e : Entry) : Option T :=
  match f e with
  | some value => some value
  | none => Entry.map_parents f e

/-- Embedding of `Entry::date_any` of `src/lib.rs`. -/
def Entry.date_any (e : Entry) : Option Date :=
  Entry.map (fun x => x.fields.date) e

/-- Embedding of `Entry::url_any` of `src/lib.rs`. -/
def Entry.url_any (e : Entry) : Option QualifiedUrl :=
  Entry.map (fun x => x.fields.url) e

mutual

/-- Decision procedure for the spec's ancestor relation: `a` is an ancestor of
`e` iff `a` is reachable from `e` by one or more parent links, that is, `a` is
a parent of `e` or an ancestor of one of `e`'s parents. -/
def Entry.isAncestorOf (a : Entry) : Entry → Bool
  | .mk _ _ _ ps => Entry.isAncestorOfAny a ps

/-- List form of `Entry.isAncestorOf`: `a` equals or is an ancestor of some
element of the list. -/
def Entry.isAncestorOfAny (a : Entry) : List Entry → Bool
  | [] => false
  | p :: rest =>
    (decide (a = p) || Entry.isAncestorOf a p) || Entry.isAncestorOfAny a rest

end

/-- Modelled from the spec: the type-relationship vocabulary of the
canonical-parent mechanism (`EntryTypeModality` in `types.rs`, not part of the
sources under verification): a required type, an alternation of types, or any
type. -/
inductive EntryTypeModality : Type where
  | specific (t : EntryType)
  | alternate (ts : List EntryType)
  | any

/-- Modelled from the spec: whether an entry type satisfies a modality. -/
def EntryTypeModality.matches : EntryTypeModality → EntryType → Bool
  | .specific t, u => decide (t = u)
  | .alternate ts, u => ts.contains u
  | .any, _ => true

/-- Modelled from the spec: an `EntryTypeSpec` built by
`EntryTypeSpec::single_parent` declares a required modality for the node and a
required modality for its single qualifying parent. -/
structure EntryTypeSpec where
  entry_modality : EntryTypeModality
  parent_modality : EntryTypeModality

/-- Constructor mirroring `EntryTypeSpec::single_parent`. -/
def EntryTypeSpec.single_parent (e p : EntryTypeModality) : EntryTypeSpec :=
  ⟨e, p⟩

/-- Whether the parent of `e` at position `i` exists and satisfies the
modality `m`. -/
def Entry.parent_qualifies (e : Entry) (m : EntryTypeModality) (i : Nat) : Bool :=
  match e.parents.get? i with
  | some p => m.matches p.entry_type
  | none => false

/-- Modelled from the spec: `Entry::check_with_spec` succeeds iff the entry
satisfies the node modality and exactly one parent satisfies the parent
modality, returning the positions of the qualifying parents (then a singleton);
it fails when zero or more than one parent qualifies, or when the node itself
does not match. -/
def Entry.check_with_spec (e : Entry) (s : EntryTypeSpec) :
    Except Unit (List Nat) :=
  if s.entry_modality.matches e.entry_type then
    let q := (List.range e.parents.length).filter (e.parent_qualifies s.parent_modality)
    if q.length = 1 then .ok q else .error ()
  else .error ()

/-- Spec used by `get_canonical_parent` in `src/output/ieee/mod.rs` for
sections: a chapter, scene or web item under any parent. -/
def section_spec : EntryTypeSpec :=
  EntryTypeSpec.single_parent
    (.alternate [.chapter, .scene, .webItem]) .any

/-- Spec for anthology parts: an in-anthology node under an anthology. -/
def anthology_spec : EntryTypeSpec :=
  EntryTypeSpec.single_parent (.specific .inAnthology) (.specific .anthology)

/-- Spec for entries contained in a reference or repository. -/
def entry_spec : EntryTypeSpec :=
  EntryTypeSpec.single_parent
    (.specific .entry) (.alternate [.reference, .repository])

/-- Spec for any node under proceedings. -/
def proc_spec : EntryTypeSpec :=
  EntryTypeSpec.single_parent .any (.specific .proceedings)

/-- Spec for articles in a periodical. -/
def periodical_spec : EntryTypeSpec :=
  EntryTypeSpec.single_parent (.specific .article) (.specific .periodical)

/-- Result chaining mirroring `Result::or_else` in `get_canonical_parent`:
keep the first success. -/
def exceptOr (a b : Except Unit (List Nat)) : Except Unit (List Nat) :=
  match a with
  | .ok r => .ok r
  | .error _ => b

/-- Embedding of `get_canonical_parent` of `src/output/ieee/mod.rs`: try the
anthology, periodical, entry, proceedings and section specs in this order;
on the first success take the parent at the returned position, on failure of
all five yield `None`. The Rust code indexes with `r[0]` and `unwrap`s the
lookup; the embedding uses checked lookups, which agree because a successful
check always returns one in-range position. -/
def get_canonical_parent (entry : Entry) : Option Entry :=
  match exceptOr (entry.check_with_spec anthology_spec)
      (exceptOr (entry.check_with_spec periodical_spec)
        (exceptOr (entry.check_with_spec entry_spec)
          (exceptOr (entry.check_with_spec proc_spec)
            (entry.check_with_spec section_spec)))) with
  | .ok r =>
    match r.get? 0 with
    | some i => entry.parents.get? i
    | none => none
  | .error _ => none

/-- Order in which `get_canonical_parent` tries its five specs. -/
def canonical_spec_order : List EntryTypeSpec :=
  [anthology_spec, periodical_spec, entry_spec, proc_spec, section_spec]

/-- Reformulation following the words of the spec, for comparison with
`get_canonical_parent`: walk the specs in order; on the first spec whose
check succeeds resolve the parent at the returned position, and yield `None`
when every spec fails. -/
def resolve_first_spec (e : Entry) : List EntryTypeSpec → Option Entry
  | [] => none
  | s :: rest =>
    match e.check_with_spec s with
    | .ok r =>
      match r.get? 0 with
      | some i => e.parents.get? i
      | none => none
    | .error _ => resolve_first_spec e rest

/-- Keys of a sequence of pushed entries that are new relative to `existing`,
listed in the order of their first push. -/
def first_inserted_keys (existing : List String) : List Entry → List String
  | [] => []
  | e :: rest =>
    if e.key ∈ existing then first_inserted_keys existing rest
    else e.key :: first_inserted_keys (e.key :: existing) rest

/-- Chain of checks with `Result::or_else` semantics over a list of specs. -/
def chain_check (e : Entry) : List EntryTypeSpec → Except Unit (List Nat)
  | [] => .error ()
  | s :: rest => exceptOr (e.check_with_spec s) (chain_check e rest)

/-- Fields record holding only a date, for concrete fixtures. -/
def fields_with_date : EntryFields :=
  ⟨none, none, some ⟨1961⟩, none, none, none, none, none, none, none, none,
   none, none, none, none, none, none, none, none, none, none, none, none,
   none, none, none⟩

/-- Fixture: a grandparent entry that carries a date. -/
def date_grandparent : Entry :=
  .mk "c" .periodical fields_with_date []

/-- Fixture: a dateless parent whose own parent carries the date. -/
def undated_parent : Entry :=
  .mk "b" .misc EntryFields.empty [date_grandparent]

/-- Fixture: a dateless article whose grandparent carries the date. -/
def probe_article : Entry :=
  .mk "a" .article EntryFields.empty [undated_parent]

/-- Fixture: a naked entry with an explicit article type and nothing else. -/
def naked_article : NakedEntry :=
  .mk (some .article) [] EntryFields.empty

/-- Fixture: a deserialization input that repeats the key "a". -/
def dup_pairs : List (String × NakedEntry) :=
  [("a", naked_article), ("a", naked_article)]

/-- Fixture entries for the library-order claims. -/
def entry_a : Entry := Entry.new "a" .article

/-- Fixture entry keyed "b". -/
def entry_b : Entry := Entry.new "b" .book

/-- Fixture entry keyed "c". -/
def entry_c : Entry := Entry.new "c" .misc

/-- Fixture: the library built by pushing entries keyed a, b, c in order. -/
def abc_library : Library :=
  ((Library.new.push entry_a).push entry_b).push entry_c

/-- Fixture: the library built by pushing entries keyed a and b. -/
def ab_library : Library :=
  (Library.new.push entry_a).push entry_b

/-- Fixture: a second entry keyed "a" with a different type. -/
def entry_a_thesis : Entry := .mk "a" .thesis EntryFields.empty []

/-- Fixture: a periodical to serve as canonical parent. -/
def periodical_parent : Entry := Entry.new "j" .periodical

/-- Fixture: an article whose single parent is a periodical. -/
def article_in_periodical : Entry :=
  .mk "art" .article EntryFields.empty [periodical_parent]

/-- Helper: on a singleton path `[k]` the loop of `Entry::map_parents`
terminates within any fuel exceeding the number of remaining direct parents
and returns the first hit of `f` among the direct parents from position `k`
on. In particular the loop never grows the path, so only direct parents are
ever probed. -/
theorem map_parents_loop_spec {T : Type} (f : Entry → Option T) (e : Entry) :
    ∀ (fuel k : Nat), e.parents.length - k < fuel →
    Entry.map_parents_loop f e fuel [k] = some ((e.parents.drop k).findSome? f) := by
  intro fuel
  induction fuel with
  | zero => intro k h; omega
  | succ n ih =>
    intro k h
    rw [Entry.map_parents_loop]
    cases hk : e.parents.get? k with
    | none =>
      rw [List.get?_eq_none] at hk
      rw [List.drop_eq_nil_of_le hk]
      rfl
    | some item0 =>
      have hklt : k < e.parents.length := by
        by_contra hge
        rw [List.get?_eq_none.mpr (by omega)] at hk
        exact Option.noConfusion hk
      have hkget := List.get?_eq_get hklt
      rw [hkget] at hk
      injection hk with hk
      have hdrop : e.parents.drop k = item0 :: e.parents.drop (k + 1) := by
        rw [List.drop_eq_getElem_cons hklt, ← hk]
        rfl
      simp only [descendPath]
      cases hf : f item0 with
      | some v =>
        simp [hdrop, List.findSome?_cons, hf]
      | none =>
        simp [ih (k + 1) (by omega), hdrop, List.findSome?_cons, hf]

/-- Helper: closed form of the embedded `Entry::map_parents`: it returns the
first non-`None` probe among the direct parents in declared order and never
reaches a grandparent. -/
theorem map_parents_eq_findSome {T : Type} (f : Entry → Option T) (e : Entry) :
    Entry.map_parents f e = e.parents.findSome? f := by
  rw [Entry.map_parents, map_parents_loop_spec f e _ 0 (by omega)]
  rfl

/-- Helper: a true `isAncestorOfAny` yields a member that is the ancestor
candidate itself or has it as an ancestor. -/
theorem isAncestorOfAny_exists {a : Entry} {l : List Entry}
    (h : Entry.isAncestorOfAny a l = true) :
    ∃ p ∈ l, a = p ∨ Entry.isAncestorOf a p = true := by
  induction l with
  | nil => simp [Entry.isAncestorOfAny] at h
  | cons p rest ih =>
    rw [Entry.isAncestorOfAny] at h
    simp only [Bool.or_eq_true, decide_eq_true_eq] at h
    rcases h with (h | h) | h
    · exact ⟨p, List.mem_cons_self _ _, Or.inl h⟩
    · exact ⟨p, List.mem_cons_self _ _, Or.inr h⟩
    · obtain ⟨q, hq, hcase⟩ := ih h
      exact ⟨q, List.mem_cons_of_mem _ hq, hcase⟩

/-- Helper: an ancestor of an entry is structurally smaller than the entry,
by strong induction on the size bound `n`. -/
theorem sizeOf_lt_of_ancestor (n : Nat) :
    ∀ (e : Entry), sizeOf e ≤ n →
    ∀ a, Entry.isAncestorOf a e = true → sizeOf a < sizeOf e := by
  induction n with
  | zero =>
    intro e hle
    cases e with
    | mk k t f ps => simp at hle
  | succ n ih =>
    intro e hle a hanc
    cases e with
    | mk k t f ps =>
      rw [Entry.isAncestorOf] at hanc
      obtain ⟨p, hp, hcase⟩ := isAncestorOfAny_exists hanc
      have hlt : sizeOf p < sizeOf (Entry.mk k t f ps) := by
        have h1 : sizeOf p < sizeOf ps := List.sizeOf_lt_of_mem hp
        simp
        omega
      rcases hcase with rfl | hanc2
      · exact hlt
      · have := ih p (by omega) a hanc2
        omega

/-- Helper: when the keys of the already-collected pairs are distinct but the
keys of collected and pending pairs together contain a repetition, the
collection loop of `MyVisitor::visit_map` aborts with a "duplicate key" error
naming a key that occurs at least twice. -/
theorem visit_map_collect_duplicate :
    ∀ (pairs acc : List (String × NakedEntry)), (acc.map Prod.fst).Nodup →
    ¬ ((acc ++ pairs).map Prod.fst).Nodup →
    ∃ k, 2 ≤ ((acc ++ pairs).map Prod.fst).count k ∧
      visit_map_collect acc pairs = .error ("duplicate key " ++ k) := by
  intro pairs
  induction pairs with
  | nil =>
    intro acc hnd hdup
    rw [List.append_nil] at hdup
    exact absurd hnd hdup
  | cons hd rest ih =>
    obtain ⟨key, v⟩ := hd
    intro acc hnd hdup
    rw [visit_map_collect]
    by_cases hmem : acc.any (fun p => p.1 == key) = true
    · refine ⟨key, ?_, by rw [if_pos hmem]⟩
      have hk : key ∈ acc.map Prod.fst := by
        simp only [List.any_eq_true, beq_iff_eq] at hmem
        obtain ⟨p, hp, he⟩ := hmem
        exact List.mem_map.mpr ⟨p, hp, he⟩
      have h1 : 0 < (acc.map Prod.fst).count key := List.count_pos_iff.mpr hk
      have h2 : (((key, v) :: rest).map Prod.fst).count key =
          (rest.map Prod.fst).count key + 1 := by
        rw [List.map_cons]
        exact List.count_cons_self key (rest.map Prod.fst)
      rw [List.map_append, List.count_append, h2]
      omega
    · have hnotin : key ∉ acc.map Prod.fst := by
        rw [Bool.not_eq_true] at hmem
        simp only [List.any_eq_false, beq_iff_eq] at hmem
        intro hin
        obtain ⟨p, hp, he⟩ := List.mem_map.mp hin
        exact hmem p hp he
      rw [if_neg hmem]
      have hnd2 : ((acc ++ [(key, v)]).map Prod.fst).Nodup := by
        rw [List.map_append, List.nodup_append_comm]
        exact List.nodup_cons.mpr ⟨hnotin, hnd⟩
      have heq : (acc ++ [(key, v)]) ++ rest = acc ++ (key, v) :: rest :=
        (List.append_cons acc (key, v) rest).symm
      have hdup2 : ¬ (((acc ++ [(key, v)]) ++ rest).map Prod.fst).Nodup := by
        rw [heq]; exact hdup
      obtain ⟨k, hcount, herr⟩ := ih (acc ++ [(key, v)]) hnd2 hdup2
      refine ⟨k, ?_, herr⟩
      rw [← heq]
      exact hcount

/-- Helper: `first_inserted_keys` only depends on the membership of the
`existing` list. -/
theorem first_inserted_keys_congr :
    ∀ (es : List Entry) (s1 s2 : List String), (∀ k, k ∈ s1 ↔ k ∈ s2) →
    first_inserted_keys s1 es = first_inserted_keys s2 es := by
  intro es
  induction es with
  | nil => intro s1 s2 _; rfl
  | cons e rest ih =>
    intro s1 s2 hiff
    rw [first_inserted_keys, first_inserted_keys]
    by_cases hm : e.key ∈ s1
    · rw [if_pos hm, if_pos ((hiff e.key).mp hm)]
      exact ih s1 s2 hiff
    · rw [if_neg hm, if_neg (fun h => hm ((hiff e.key).mpr h))]
      refine congrArg (e.key :: ·) (ih _ _ ?_)
      intro k
      simp only [List.mem_cons]
      exact or_congr Iff.rfl (hiff k)

/-- Helper: membership of a key in `Library.keys` matches the `any` probe
used by the IndexMap insertion model. -/
theorem mem_keys_iff_any (l : Library) (k : String) :
    k ∈ l.keys ↔ l.entries.any (fun p => p.1 == k) = true := by
  rw [Library.keys]
  simp only [List.any_eq_true, beq_iff_eq, List.mem_map]

/-- Helper: a push either keeps the key sequence unchanged (existing key,
replaced in place) or appends the new key at the end. -/
theorem push_keys (l : Library) (e : Entry) :
    (l.push e).keys = if e.key ∈ l.keys then l.keys else l.keys ++ [e.key] := by
  by_cases hm : e.key ∈ l.keys
  · rw [if_pos hm]
    rw [Library.push, Library.keys, indexmap_insert,
      if_pos ((mem_keys_iff_any l e.key).mp hm), List.map_map]
    rw [Library.keys]
    refine List.map_congr_left ?_
    intro p _
    by_cases hp : p.1 = e.key
    · simp [hp]
    · simp [hp]
  · rw [if_neg hm]
    have hany : l.entries.any (fun p => p.1 == e.key) = false := by
      cases hcase : l.entries.any (fun p => p.1 == e.key)
      · rfl
      · exact absurd ((mem_keys_iff_any l e.key).mpr hcase) hm
    rw [Library.push, Library.keys, indexmap_insert, hany]
    simp [Library.keys]

/-- Helper: after any sequence of pushes, the key sequence is the original
keys followed by the newly first-inserted keys in first-push order. -/
theorem foldl_push_keys :
    ∀ (es : List Entry) (l : Library),
    (es.foldl Library.push l).keys = l.keys ++ first_inserted_keys l.keys es := by
  intro es
  induction es with
  | nil => intro l; rw [List.foldl_nil, first_inserted_keys, List.append_nil]
  | cons e rest ih =>
    intro l
    rw [List.foldl_cons, ih (l.push e), push_keys, first_inserted_keys]
    by_cases hm : e.key ∈ l.keys
    · rw [if_pos hm, if_pos hm]
    · rw [if_neg hm, if_neg hm]
      rw [first_inserted_keys_congr rest (l.keys ++ [e.key]) (e.key :: l.keys)
        (by intro k; simp [List.mem_append, List.mem_cons, or_comm])]
      simp

/-- Helper: a filter over `range n` is the singleton `[i]` exactly when `i` is
in range, satisfies the predicate, and is the only index below `n` that does. -/
theorem filter_range_eq_singleton (n i : Nat) (p : Nat → Bool) :
    (List.range n).filter p = [i] ↔
    i < n ∧ p i = true ∧ ∀ j, j < n → j ≠ i → p j = false := by
  constructor
  · intro h
    have hi : i ∈ (List.range n).filter p := by rw [h]; exact List.mem_singleton_self i
    rw [List.mem_filter, List.mem_range] at hi
    refine ⟨hi.1, hi.2, ?_⟩
    intro j hj hne
    cases hpj : p j
    · rfl
    · have : j ∈ (List.range n).filter p :=
        List.mem_filter.mpr ⟨List.mem_range.mpr hj, hpj⟩
      rw [h, List.mem_singleton] at this
      exact absurd this hne
  · rintro ⟨hin, hpi, huniq⟩
    have hmem : ∀ x, x ∈ (List.range n).filter p → x = i := by
      intro x hx
      rw [List.mem_filter, List.mem_range] at hx
      by_contra hne
      rw [huniq x hx.1 hne] at hx
      exact Bool.false_ne_true hx.2
    have hself : i ∈ (List.range n).filter p :=
      List.mem_filter.mpr ⟨List.mem_range.mpr hin, hpi⟩
    have hnd : ((List.range n).filter p).Nodup := (List.nodup_range n).filter p
    cases hf : (List.range n).filter p with
    | nil => rw [hf] at hself; exact absurd hself (List.not_mem_nil i)
    | cons x xs =>
      have hx : x = i := hmem x (by rw [hf]; exact List.mem_cons_self x xs)
      cases xs with
      | nil => rw [hx]
      | cons y ys =>
        have hy : y = i := hmem y (by rw [hf]; exact List.mem_cons_of_mem x (List.mem_cons_self y ys))
        rw [hf, hx, hy] at hnd
        rw [List.nodup_cons] at hnd
        exact absurd (List.mem_cons_self i ys) hnd.1

/-- Helper: full characterization of a successful `check_with_spec`: it
returns `[i]` exactly when the node modality matches and the parent at `i` is
the unique qualifying parent. -/
theorem check_with_spec_ok_iff (e : Entry) (s : EntryTypeSpec) (i : Nat) :
    e.check_with_spec s = .ok [i] ↔
    s.entry_modality.matches e.entry_type = true ∧ i < e.parents.length ∧
    e.parent_qualifies s.parent_modality i = true ∧
    ∀ j, j < e.parents.length → j ≠ i →
      e.parent_qualifies s.parent_modality j = false := by
  rw [Entry.check_with_spec]
  by_cases hm : s.entry_modality.matches e.entry_type = true
  · rw [if_pos hm]
    simp only [hm, true_and]
    by_cases hq :
        ((List.range e.parents.length).filter (e.parent_qualifies s.parent_modality)).length = 1
    · rw [if_pos hq]
      constructor
      · intro h
        injection h with h
        exact (filter_range_eq_singleton _ i _).mp h
      · intro h
        exact congrArg Except.ok ((filter_range_eq_singleton _ i _).mpr h)
    · rw [if_neg hq]
      constructor
      · intro h; exact absurd h (by simp)
      · intro h
        have := (filter_range_eq_singleton _ i _).mpr h
        rw [this] at hq
        exact absurd rfl hq
  · rw [if_neg hm]
    constructor
    · intro h; exact absurd h (by simp)
    · intro h; exact absurd h.1 hm

/-- Helper: a successful `check_with_spec` always returns one in-range
qualifying position. -/
theorem check_with_spec_ok_shape (e : Entry) (s : EntryTypeSpec)
    (r : List Nat) (h : e.check_with_spec s = .ok r) :
    ∃ i, r = [i] ∧ i < e.parents.length ∧
      e.parent_qualifies s.parent_modality i = true := by
  rw [Entry.check_with_spec] at h
  by_cases hm : s.entry_modality.matches e.entry_type = true
  · rw [if_pos hm] at h
    by_cases hq :
        ((List.range e.parents.length).filter (e.parent_qualifies s.parent_modality)).length = 1
    · rw [if_pos hq] at h
      injection h with h
      obtain ⟨i, hi⟩ := List.length_eq_one.mp hq
      refine ⟨i, by rw [← h, hi], ?_, ?_⟩
      · have : i ∈ (List.range e.parents.length).filter
            (e.parent_qualifies s.parent_modality) := by
          rw [hi]; exact List.mem_singleton_self i
        rw [List.mem_filter, List.mem_range] at this
        exact this.1
      · have : i ∈ (List.range e.parents.length).filter
            (e.parent_qualifies s.parent_modality) := by
          rw [hi]; exact List.mem_singleton_self i
        rw [List.mem_filter] at this
        exact this.2
    · rw [if_neg hq] at h
      exact absurd h (by simp)
  · rw [if_neg hm] at h
    exact absurd h (by simp)

/-- Helper: chaining with a failing right branch is the identity. -/
theorem exceptOr_error_right (a : Except Unit (List Nat)) :
    exceptOr a (.error ()) = a := by
  cases a with
  | ok r => rfl
  | error u => cases u; rfl

/-- Helper: resolving through the chained checks equals walking the spec list
and resolving at the first success. -/
theorem chain_check_resolve (e : Entry) :
    ∀ specs : List EntryTypeSpec,
    (match chain_check e specs with
     | .ok r =>
       match r.get? 0 with
       | some i => e.parents.get? i
       | none => none
     | .error _ => none) = resolve_first_spec e specs := by
  intro specs
  induction specs with
  | nil => rfl
  | cons s rest ih =>
    rw [chain_check, resolve_first_spec]
    cases hc : e.check_with_spec s with
    | ok r => rw [exceptOr]
    | error u => rw [exceptOr, ih]

/-- C1: the claim states that `Entry::map_parents` performs breadth-first
search over the whole ancestor graph, finding a value held by a grandparent
when no parent yields one. The code disagrees: its path vector starts at
`vec![0]` and is never pushed to, so only direct parents are ever probed. At
this input the grandparent holds the probed date and is reachable through the
only parent, every direct parent probes to `None`, and `map_parents` returns
`None` instead of the grandparent's value. -/
theorem C1_map_parents_misses_grandparent :
    undated_parent ∈ probe_article.parents ∧
    date_grandparent ∈ undated_parent.parents ∧
    date_grandparent.fields.date = some ⟨1961⟩ ∧
    (∀ p ∈ probe_article.parents, p.fields.date = none) ∧
    Entry.map_parents (fun x => x.fields.date) probe_article = none := by
  decide

/-- C2: deserializing an input whose keys repeat fails with a load error that
names a repeated key, and no library value is produced. -/
theorem C2_duplicate_key_load_error :
    ∀ pairs : List (String × NakedEntry), ¬ (pairs.map Prod.fst).Nodup →
    ∃ k, 2 ≤ (pairs.map Prod.fst).count k ∧
      Library.deserialize pairs = .error ("duplicate key " ++ k) := by
  intro pairs hdup
  obtain ⟨k, hc, herr⟩ := visit_map_collect_duplicate pairs []
    List.nodup_nil (by rw [List.nil_append]; exact hdup)
  rw [List.nil_append] at hc
  refine ⟨k, hc, ?_⟩
  rw [Library.deserialize, herr]

/-- Witness for C2 at the concrete input that repeats the key "a". -/
theorem C2_duplicate_key_load_error_witness :
    ∃ k, 2 ≤ ((dup_pairs.map Prod.fst).count k) ∧
      Library.deserialize dup_pairs = .error ("duplicate key " ++ k) :=
  C2_duplicate_key_load_error dup_pairs (by decide)

/-- C3 counterexample: the claim says equality is decided by exactly entry
type, fields and parents; but two fresh entries that differ only in their key
agree on all three components and are still unequal, because the derived
`PartialEq` also compares the key. -/
theorem C3_equality_ignores_key_counterexample :
    (Entry.new "k1" .article).entry_type = (Entry.new "k2" .article).entry_type ∧
    (Entry.new "k1" .article).fields = (Entry.new "k2" .article).fields ∧
    (Entry.new "k1" .article).parents = (Entry.new "k2" .article).parents ∧
    Entry.new "k1" .article ≠ Entry.new "k2" .article := by
  decide

/-- C3 (amended): two entries are equal iff their keys, entry types, optional
fields and parent lists are all structurally equal. -/
theorem C3_entry_eq_iff :
    ∀ a b : Entry, a = b ↔
      a.key = b.key ∧ a.entry_type = b.entry_type ∧ a.fields = b.fields ∧
      a.parents = b.parents := by
  intro a b
  cases a with
  | mk k1 t1 f1 p1 =>
    cases b with
    | mk k2 t2 f2 p2 =>
      simp [Entry.key, Entry.entry_type, Entry.fields, Entry.parents]

/-- C4: `Entry::map` returns `f(e)` whenever it is non-`None` and otherwise
exactly the result of `map_parents`. -/
theorem C4_map_probes_self_then_parents :
    ∀ (T : Type) (f : Entry → Option T) (e : Entry),
      Entry.map f e = if (f e).isSome then f e else Entry.map_parents f e := by
  intro T f e
  cases h : f e with
  | none => simp [Entry.map, h]
  | some v => simp [Entry.map, h]

/-- C5: the parent relation is acyclic for every constructible entry value:
no entry is reachable from itself by one or more parent links. Parents are
owned substructures, so an ancestor is always structurally smaller than the
entry it is reached from. -/
theorem C5_no_entry_is_own_ancestor :
    ∀ e : Entry, Entry.isAncestorOf e e = false := by
  intro e
  cases h : Entry.isAncestorOf e e
  · rfl
  · have := sizeOf_lt_of_ancestor (sizeOf e) e (Nat.le_refl _) e h
    omega

/-- C6 counterexample: the claim says iteration preserves the relative
first-insertion order of the remaining keys after any sequence of push and
remove operations. After pushing keys a, b, c and removing "a", the remaining
keys in first-insertion order are [b, c], but `IndexMap::remove` is a
swap-remove that moves the last entry into the removed slot, so iteration
yields [c, b]. -/
theorem C6_remove_breaks_order_counterexample :
    (abc_library.remove "a").2.keys = ["c", "b"] ∧
    (["a", "b", "c"].filter (fun k => (abc_library.remove "a").2.keys.contains k)) = ["b", "c"] ∧
    (abc_library.remove "a").2.keys ≠ ["b", "c"] := by
  decide

/-- C6 (amended): after any sequence of pushes iteration order is exactly the
first-insertion key order: a push of an existing key replaces in place and
keeps every position, and each new key is appended at the end. `remove` is a
swap-remove, which moves the last entry into the removed entry's slot and so
does not preserve relative order (see the counterexample). -/
theorem C6_push_preserves_insertion_order :
    ∀ (l : Library) (es : List Entry),
      (es.foldl Library.push l).keys = l.keys ++ first_inserted_keys l.keys es :=
  fun l es => foldl_push_keys es l

/-- C7: `check_with_spec` (modelled from the spec) succeeds with position `i`
exactly when the node modality matches and the parent at `i` is the unique
qualifying parent; every success carries exactly one in-range position; and
`get_canonical_parent` resolves the parent at the position returned by the
first of its five specs that succeeds, in the order anthology, periodical,
entry, proceedings, section, yielding `None` when every spec fails. -/
theorem C7_canonical_parent_resolution :
    ∀ e : Entry,
      (∀ s i, e.check_with_spec s = .ok [i] ↔
        s.entry_modality.matches e.entry_type = true ∧ i < e.parents.length ∧
        e.parent_qualifies s.parent_modality i = true ∧
        ∀ j, j < e.parents.length → j ≠ i →
          e.parent_qualifies s.parent_modality j = false) ∧
      (∀ s r, e.check_with_spec s = .ok r →
        ∃ i, r = [i] ∧ i < e.parents.length ∧
          e.parent_qualifies s.parent_modality i = true) ∧
      get_canonical_parent e = resolve_first_spec e canonical_spec_order := by
  intro e
  refine ⟨fun s i => check_with_spec_ok_iff e s i,
    fun s r h => check_with_spec_ok_shape e s r h, ?_⟩
  have h5 : chain_check e canonical_spec_order =
      exceptOr (e.check_with_spec anthology_spec)
        (exceptOr (e.check_with_spec periodical_spec)
          (exceptOr (e.check_with_spec entry_spec)
            (exceptOr (e.check_with_spec proc_spec)
              (e.check_with_spec section_spec)))) := by
    simp only [canonical_spec_order, chain_check]
    rw [exceptOr_error_right]
  rw [← chain_check_resolve e canonical_spec_order, h5]
  rfl

/-- Witness for C7 at an article with a single periodical parent. -/
theorem C7_canonical_parent_resolution_witness :
    (get_canonical_parent article_in_periodical =
      resolve_first_spec article_in_periodical canonical_spec_order) ∧
    (∃ i, ([0] : List Nat) = [i] ∧ i < article_in_periodical.parents.length ∧
      article_in_periodical.parent_qualifies periodical_spec.parent_modality i = true) :=
  ⟨(C7_canonical_parent_resolution article_in_periodical).2.2,
   (C7_canonical_parent_resolution article_in_periodical).2.1 periodical_spec [0] rfl⟩

/-- C8: every ancestor traversal terminates: the loop of `map_parents`
returns within `parents.length + 1` iterations (its path never grows, so the
fuel bound suffices for every probe function and entry), and `map` is total
on top of it, probing the entry itself first. -/
theorem C8_traversals_terminate :
    ∀ (T : Type) (f : Entry → Option T) (e : Entry),
      (Entry.map_parents_loop f e (e.parents.length + 1) [0]).isSome = true ∧
      Entry.map f e = (if (f e).isSome then f e else Entry.map_parents f e) := by
  intro T f e
  constructor
  · rw [map_parents_loop_spec f e _ 0 (by omega)]
    rfl
  · cases h : f e with
    | none => simp [Entry.map, h]
    | some v => simp [Entry.map, h]

/-- C9: pushing an entry whose key is already present replaces the stored
entry in place: the length is unchanged, the key sequence (hence every
position) is unchanged, and the stored pairs are unchanged except that every
pair carrying that key now holds the new entry. -/
theorem C9_push_existing_key_replaces :
    ∀ (l : Library) (e : Entry), e.key ∈ l.keys →
      (l.push e).len = l.len ∧
      (l.push e).keys = l.keys ∧
      (l.push e).entries =
        l.entries.map (fun p => if p.1 = e.key then (p.1, e) else p) := by
  intro l e hm
  have hany := (mem_keys_iff_any l e.key).mp hm
  have hent : (l.push e).entries =
      l.entries.map (fun p => if p.1 = e.key then (p.1, e) else p) := by
    rw [Library.push, indexmap_insert, if_pos hany]
  refine ⟨?_, ?_, hent⟩
  · rw [Library.len, Library.len, hent, List.length_map]
  · rw [push_keys, if_pos hm]

/-- Witness for C9: replacing the entry keyed "a" in the two-entry library. -/
theorem C9_push_existing_key_replaces_witness :
    ("a" ∈ ab_library.keys) ∧
    ((ab_library.push entry_a_thesis).len = ab_library.len ∧
     (ab_library.push entry_a_thesis).keys = ab_library.keys ∧
     (ab_library.push entry_a_thesis).entries =
       ab_library.entries.map
         (fun p => if p.1 = entry_a_thesis.key then (p.1, entry_a_thesis) else p)) :=
  ⟨by decide, C9_push_existing_key_replaces ab_library entry_a_thesis (by decide)⟩

/-- C10: a fresh entry carries exactly the given key and type, has no parents,
and `has` answers false for every field name, known or unknown. -/
theorem C10_new_entry_is_empty :
    ∀ (k : String) (t : EntryType),
      (Entry.new k t).key = k ∧ (Entry.new k t).entry_type = t ∧
      (Entry.new k t).parents = [] ∧
      ∀ f, (Entry.new k t).has f = false := by
  intro k t
  refine ⟨rfl, rfl, rfl, ?_⟩
  intro f
  simp [Entry.has, Entry.new, Entry.fields, EntryFields.empty]
